import Mathlib

/-!
Verification of the DarkDrop backend job-orchestration subsystem
(src/backend/src/index.ts) against its specification.

The backend keeps an in-memory map from job ids to job records, spawns one
external download process per submission, updates the record from the
process's output lines and exit events, answers progress queries as a pure
projection of the record, and reclaims expired records and their backing
files with a periodic retention sweep.

The embedding below translates the TypeScript source directly:
  - the `jobs` object becomes an association list `Store` with unique keys
    (a JS object cannot hold two bindings for one key);
  - JS numbers used for timestamps become `Int` (Date.now() arithmetic) and
    progress percentages become `Rat` (the exact value of the parsed
    decimal literal);
  - each anonymous event callback becomes a named total function on the
    store; `fs` effects are made explicit (`FS` carries the set of files in
    the download directory, plus the set of paths whose removal fails,
    modelling `fs.unlinkSync` throwing, e.g. on EPERM);
  - code that can throw is translated to `Except`.
-/

/-- Job status values, from the `Job` interface in the source:
`"pending" | "downloading" | "processing" | "completed" | "error"`. -/
inductive Status where
  | pending
  | downloading
  | processing
  | completed
  | error
deriving DecidableEq, Repr

/-- One job record, from the `Job` interface in the source. `progress` is
the exact rational value of the decimal percentage literal parsed from the
process output. -/
structure Job where
  status : Status
  progress : ℚ
  file : Option String
  error : Option String
  createdAt : ℤ
deriving DecidableEq, Repr

/-- The in-memory `jobs` object: an insertion-ordered association list from
job id to record (`Object.keys` enumerates keys in insertion order). -/
abbrev Store := List (String × Job)

/-- Reading `jobs[jobId]`: the binding for the key, if present. -/
def lookupJob (jobId : String) : Store → Option Job
  | [] => none
  | (k, j) :: rest => if k = jobId then some j else lookupJob jobId rest

/-- A single field mutation `jobs[jobId].field = v`, applied to the binding
for the key when it exists; absent key leaves the store unchanged. -/
def setJob (jobId : String) (f : Job → Job) : Store → Store
  | [] => []
  | (k, j) :: rest =>
      if k = jobId then (k, f j) :: setJob jobId f rest
      else (k, j) :: setJob jobId f rest

/-- The statement `delete jobs[jobId]`. -/
def deleteJob (jobId : String) : Store → Store
  | [] => []
  | (k, j) :: rest =>
      if k = jobId then deleteJob jobId rest
      else (k, j) :: deleteJob jobId rest

/-- JS `s.startsWith(pre)`: the characters of `pre` are a prefix of the
characters of `s`. -/
def strStartsWith (s pre : String) : Bool :=
  pre.data.isPrefixOf s.data

/-- JS truthiness of a string-or-null value folded to an `Option`:
`undefined`, `null` and the empty string are falsy, so `x || null` yields
`none` exactly when `x` is `none` or `some ""`. -/
def jsOrNull : Option String → Option String
  | none => none
  | some s => if s = "" then none else some s

/-- `const JOB_CLEANUP_TIME = 60 * 60 * 1000` (milliseconds). -/
def JOB_CLEANUP_TIME : ℤ := 60 * 60 * 1000

/-- The record inserted by `POST /api/media/download`:
`{ status: "downloading", progress: 0, file: null, createdAt: Date.now() }`
(the optional `error` field is absent). -/
def initialJob (now : ℤ) : Job :=
  { status := .downloading, progress := 0, file := none, error := none,
    createdAt := now }

/-- `jobs[jobId] = { ... }` at submission: a fresh key is appended in
insertion order. -/
def submitDownload (jobId : String) (now : ℤ) (jobs : Store) : Store :=
  jobs ++ [(jobId, initialJob now)]

/-! ### The progress line parser

The stdout handler runs `line.match(/(\d+\.\d+)%/)` and, on a match, stores
`parseFloat(match[1])`.  The regex finds the leftmost position at which
one-or-more digits, a dot, one-or-more digits and a percent sign match; at
a fixed position the two digit runs are forced to be the maximal ones,
because the characters required right after them (the dot, the percent
sign) are not digits. -/

/-- Numeric value of a run of decimal digit characters. -/
def digitsVal (ds : List Char) : ℕ :=
  ds.foldl (fun n c => 10 * n + (c.toNat - 48)) 0

/-- Exact rational value of the decimal literal `d1.d2`, as captured by the
regex group and read back by `parseFloat`: the integer part `d1` plus the
fraction part `d2` over `10 ^ length d2`, written over a common
denominator. -/
def decValue (d1 d2 : List Char) : ℚ :=
  mkRat (digitsVal d1 * 10 ^ d2.length + digitsVal d2) (10 ^ d2.length)

/-- Match of the pattern digits-dot-digits-percent anchored at the head of
the character list, returning the two digit runs of the captured group.
At a fixed position the first digit run is the maximal one (must be
nonempty and immediately followed by the dot), and likewise the second
(immediately followed by the percent sign): `\d+` cannot backtrack here
because the character required after it is not a digit. -/
def pctAt (cs : List Char) : Option (List Char × List Char) :=
  if cs.takeWhile (·.isDigit) = [] then none
  else
    match cs.dropWhile (·.isDigit) with
    | '.' :: r2 =>
        if r2.takeWhile (·.isDigit) = [] then none
        else
          match r2.dropWhile (·.isDigit) with
          | '%' :: _ => some (cs.takeWhile (·.isDigit), r2.takeWhile (·.isDigit))
          | _ => none
    | _ => none

/-- Leftmost match of the pattern in the line, as `String.prototype.match`
finds it: try each start position from the left. -/
def findPct : List Char → Option (List Char × List Char)
  | [] => none
  | c :: rest =>
      match pctAt (c :: rest) with
      | some g => some g
      | none => findPct rest

/-- The whole stdout-line parser: `line.match(/(\d+\.\d+)%/)` followed by
`parseFloat(match[1])`, with the decimal literal read exactly. -/
def progressParse (line : String) : Option ℚ :=
  (findPct line.data).map (fun g => decValue g.1 g.2)

/-- The stdout `data` handler:
`if (match && jobs[jobId]) jobs[jobId].progress = parseFloat(match[1])`. -/
def progressUpdate (jobId : String) (line : String) (jobs : Store) : Store :=
  match progressParse line with
  | some v =>
      match lookupJob jobId jobs with
      | some _ => setJob jobId (fun j => { j with progress := v }) jobs
      | none => jobs
  | none => jobs

/-- The ytdlp `error` handler (process failed to start):
`if (jobs[jobId]) { jobs[jobId].status = "error";
jobs[jobId].error = "Download process failed" }`. -/
def spawnErrorHandler (jobId : String) (jobs : Store) : Store :=
  match lookupJob jobId jobs with
  | none => jobs
  | some _ =>
      setJob jobId
        (fun j => { j with status := .error,
                           error := some "Download process failed" }) jobs

/-- The ytdlp `close` handler before the settling timeout:
`if (!jobs[jobId]) return;` then on `code !== 0` set status/error; on exit
code 0 it only schedules the file-discovery timeout (`fileDiscovery`). -/
def closeHandler (jobId : String) (code : ℤ) (jobs : Store) : Store :=
  match lookupJob jobId jobs with
  | none => jobs
  | some _ =>
      if code ≠ 0 then
        setJob jobId
          (fun j => { j with status := .error,
                             error := some "Download failed" }) jobs
      else jobs

/-- The body of the settling-delay `setTimeout` in the `close` handler, as
the list of stores after each successive field assignment, in source
statement order.  `scan` is the result of `fs.readdirSync(DOWNLOAD_DIR)`
(`Except.error` when the directory read throws).  In the `try` branch the
code sets `status = "completed"`, `progress = 100`, `file = file || null`
and then, `if (!file)`, overwrites `status = "error"` and sets the error
message; the `catch` branch sets `status = "error"` and its own message. -/
def fileDiscoverySteps (jobId : String) (scan : Except Unit (List String))
    (jobs : Store) : List Store :=
  match scan with
  | .error _ =>
      match lookupJob jobId jobs with
      | none => []
      | some _ =>
          [setJob jobId (fun j => { j with status := .error }) jobs,
           setJob jobId
             (fun j => { j with error := some "Failed to locate downloaded file" })
             (setJob jobId (fun j => { j with status := .error }) jobs)]
  | .ok files =>
      match lookupJob jobId jobs with
      | none => []
      | some _ =>
          match jsOrNull (files.find? (fun f => strStartsWith f jobId)) with
          | some f =>
              [setJob jobId (fun j => { j with status := .completed }) jobs,
               setJob jobId (fun j => { j with progress := 100 })
                 (setJob jobId (fun j => { j with status := .completed }) jobs),
               setJob jobId (fun j => { j with file := some f })
                 (setJob jobId (fun j => { j with progress := 100 })
                   (setJob jobId (fun j => { j with status := .completed }) jobs))]
          | none =>
              [setJob jobId (fun j => { j with status := .completed }) jobs,
               setJob jobId (fun j => { j with progress := 100 })
                 (setJob jobId (fun j => { j with status := .completed }) jobs),
               setJob jobId (fun j => { j with file := none })
                 (setJob jobId (fun j => { j with progress := 100 })
                   (setJob jobId (fun j => { j with status := .completed }) jobs)),
               setJob jobId (fun j => { j with status := .error })
                 (setJob jobId (fun j => { j with file := none })
                   (setJob jobId (fun j => { j with progress := 100 })
                     (setJob jobId (fun j => { j with status := .completed }) jobs))),
               setJob jobId
                 (fun j => { j with error := some "File not found after download" })
                 (setJob jobId (fun j => { j with status := .error })
                   (setJob jobId (fun j => { j with file := none })
                     (setJob jobId (fun j => { j with progress := 100 })
                       (setJob jobId (fun j => { j with status := .completed }) jobs))))]

/-- Net effect of the settling-delay `setTimeout` body: the final store of
`fileDiscoverySteps` (the store is untouched when the record is absent,
matching the `if (jobs[jobId])` guards in both branches). -/
def fileDiscovery (jobId : String) (scan : Except Unit (List String))
    (jobs : Store) : Store :=
  match scan with
  | .error _ =>
      match lookupJob jobId jobs with
      | none => jobs
      | some _ =>
          setJob jobId
            (fun j => { j with error := some "Failed to locate downloaded file" })
            (setJob jobId (fun j => { j with status := .error }) jobs)
  | .ok files =>
      match lookupJob jobId jobs with
      | none => jobs
      | some _ =>
          match jsOrNull (files.find? (fun f => strStartsWith f jobId)) with
          | some f =>
              setJob jobId (fun j => { j with file := some f })
                (setJob jobId (fun j => { j with progress := 100 })
                  (setJob jobId (fun j => { j with status := .completed }) jobs))
          | none =>
              setJob jobId
                (fun j => { j with error := some "File not found after download" })
                (setJob jobId (fun j => { j with status := .error })
                  (setJob jobId (fun j => { j with file := none })
                    (setJob jobId (fun j => { j with progress := 100 })
                      (setJob jobId (fun j => { j with status := .completed })
                        jobs))))

/-! ### Filesystem model and the retention sweep -/

/-- The download directory as seen by the sweep: the files currently
present, and the paths whose `fs.unlinkSync` throws (e.g. EPERM). -/
structure FS where
  files : List String
  undeletable : List String
deriving DecidableEq, Repr

/-- `fs.unlinkSync(filePath)`: throws for an undeletable path, otherwise
removes the file. -/
def unlink (f : String) (fs : FS) : Except String FS :=
  if f ∈ fs.undeletable then .error "unlink failed"
  else .ok { fs with files := fs.files.filter (· ≠ f) }

/-- One iteration of the cleanup `forEach` body for key `jobId`:
look the record up, and when `now - job.createdAt > JOB_CLEANUP_TIME`
delete the backing file (guarded by `fs.existsSync`, only when `job.file`
is truthy) and then the record.  An exception from `unlinkSync` propagates
(`Except.error`) before the record is deleted. -/
def sweepStep (now : ℤ) (acc : Store × FS) (jobId : String) :
    Except String (Store × FS) :=
  match lookupJob jobId acc.1 with
  | none => .ok acc
  | some job =>
      if now - job.createdAt > JOB_CLEANUP_TIME then
        match job.file with
        | some f =>
            if f = "" then .ok (deleteJob jobId acc.1, acc.2)
            else if f ∈ acc.2.files then
              match unlink f acc.2 with
              | .error e => .error e
              | .ok fs' => .ok (deleteJob jobId acc.1, fs')
            else .ok (deleteJob jobId acc.1, acc.2)
        | none => .ok (deleteJob jobId acc.1, acc.2)
      else .ok acc

/-- The whole `setInterval` sweep callback:
`Object.keys(jobs).forEach(...)` over the keys captured at entry, with an
exception from any iteration aborting the remaining iterations (there is
no try/catch in the callback). -/
def cleanupSweep (now : ℤ) (jobs : Store) (fs : FS) :
    Except String (Store × FS) :=
  (jobs.map Prod.fst).foldlM (sweepStep now) (jobs, fs)

/-! ### The progress query -/

/-- Shape of the `GET /api/media/progress/:jobId` response. -/
inductive ProgressSnapshot where
  | notFound
  | done (progress : ℚ) (fileUrl : String)
  | failed (progress : ℚ) (errMsg : String)
  | running (status : Status) (progress : ℚ)
deriving DecidableEq, Repr

/-- JS template interpolation of a string-or-null value. -/
def jsShow : Option String → String
  | some s => s
  | none => "null"

/-- The `GET /api/media/progress/:jobId` handler.  It only reads the
record: its type returns a snapshot and no store, so it cannot mutate. -/
def fetchProgress (jobs : Store) (jobId : String) : ProgressSnapshot :=
  match lookupJob jobId jobs with
  | none => .notFound
  | some job =>
      if job.status = .completed then
        .done 100 ("http://localhost:3000/downloads/" ++ jsShow job.file)
      else if job.status = .error then
        .failed job.progress (job.error.getD "Unknown error")
      else
        .running job.status job.progress

/-! ### Whole-job runs

A run of one job's own callbacks: its output lines in order, then exactly
one terminal event — launch failure, or exit with a code; exit code 0
additionally schedules the file-discovery step when the record is still
present at close time. -/

/-- The terminal event of a process run (ProcessRunner emits exactly one). -/
inductive RunTail where
  | launchFail
  | exits (code : ℤ) (scan : Except Unit (List String))

/-- The stores observable between the job's own callbacks, from the initial
store through each output line and the terminal event. -/
def runStates (jobId : String) : List String → RunTail → Store → List Store
  | l :: ls, tail, s => s :: runStates jobId ls tail (progressUpdate jobId l s)
  | [], .launchFail, s => [s, spawnErrorHandler jobId s]
  | [], .exits code scan, s =>
      if code = 0 then
        s :: (match lookupJob jobId s with
              | none => []
              | some _ => [fileDiscovery jobId scan s])
      else [s, closeHandler jobId code s]

/-- The job's status in each store of a list where its record is present. -/
def statusTrace (jobId : String) (states : List Store) : List Status :=
  states.filterMap (fun s => (lookupJob jobId s).map Job.status)

/-! ### Parser refinement

`PctPattern` is the specification-side reading of the progress convention:
a decimal number (a nonempty digit run, a dot, a nonempty digit run)
immediately followed by a percent sign, occurring anywhere in the line. -/

def PctPattern (s : List Char) : Prop :=
  ∃ pre d1 d2 post, s = pre ++ d1 ++ '.' :: (d2 ++ '%' :: post) ∧
    d1 ≠ [] ∧ d2 ≠ [] ∧
    (∀ c ∈ d1, c.isDigit = true) ∧ (∀ c ∈ d2, c.isDigit = true)
/-- The stores observable between successive output-line callbacks: the
initial store, then the store after each line's stdout handler. -/
def linesStates (jobId : String) : List String → Store → List Store
  | [], s => [s]
  | l :: ls, s => s :: linesStates jobId ls (progressUpdate jobId l s)
/-! ### Status values ever stored -/

/-- The status values some code path actually assigns. -/
def StatusStored (st : Status) : Prop :=
  st = .downloading ∨ st = .completed ∨ st = .error

/-- Every record in the store has a status some code path assigns. -/
def GoodStore (s : Store) : Prop := ∀ p ∈ s, StatusStored (p.2 : Job).status
def expiredJobA : Job :=
  { status := .completed, progress := 100, file := some "a.mp4",
    error := none, createdAt := 0 }

def expiredJobB : Job :=
  { status := .completed, progress := 100, file := some "b.mp4",
    error := none, createdAt := 0 }
def completedJobExample : Job :=
  { status := Status.completed, progress := 42, file := some "j.mp4",
    error := none, createdAt := 0 }
def expiredJobOld : Job :=
  { status := Status.completed, progress := 100, file := some "old.mp4",
    error := none, createdAt := 0 }

/-! ### Basic store lemmas -/

theorem lookupJob_setJob_self (k : String) (f : Job → Job) :
    ∀ s : Store, lookupJob k (setJob k f s) = (lookupJob k s).map f
  | [] => rfl
  | (k', j) :: rest => by
      by_cases h : k' = k
      · simp [setJob, lookupJob, h]
      · simp [setJob, lookupJob, h, lookupJob_setJob_self k f rest]

theorem lookupJob_setJob_ne (k i : String) (h : i ≠ k) (f : Job → Job) :
    ∀ s : Store, lookupJob i (setJob k f s) = lookupJob i s
  | [] => rfl
  | (k', j) :: rest => by
      by_cases hk : k' = k
      · have hi : ¬ k' = i := fun hc => h (hc ▸ hk)
        rw [setJob, if_pos hk, lookupJob, if_neg hi, lookupJob, if_neg hi]
        exact lookupJob_setJob_ne k i h f rest
      · rw [setJob, if_neg hk, lookupJob, lookupJob]
        by_cases hi : k' = i
        · rw [if_pos hi, if_pos hi]
        · rw [if_neg hi, if_neg hi]
          exact lookupJob_setJob_ne k i h f rest

theorem lookupJob_deleteJob_self (k : String) :
    ∀ s : Store, lookupJob k (deleteJob k s) = none
  | [] => rfl
  | (k', j) :: rest => by
      by_cases h : k' = k
      · rw [deleteJob, if_pos h]
        exact lookupJob_deleteJob_self k rest
      · rw [deleteJob, if_neg h, lookupJob, if_neg h]
        exact lookupJob_deleteJob_self k rest

theorem lookupJob_deleteJob_ne (k i : String) (h : i ≠ k) :
    ∀ s : Store, lookupJob i (deleteJob k s) = lookupJob i s
  | [] => rfl
  | (k', j) :: rest => by
      by_cases hk : k' = k
      · have hi : ¬ k' = i := fun hc => h (hc ▸ hk)
        rw [deleteJob, if_pos hk, lookupJob, if_neg hi]
        exact lookupJob_deleteJob_ne k i h rest
      · rw [deleteJob, if_neg hk, lookupJob, lookupJob]
        by_cases hi : k' = i
        · rw [if_pos hi, if_pos hi]
        · rw [if_neg hi, if_neg hi]
          exact lookupJob_deleteJob_ne k i h rest

theorem lookupJob_mem (i : String) (j : Job) :
    ∀ s : Store, lookupJob i s = some j → (i, j) ∈ s
  | [] => fun hl => by simp [lookupJob] at hl
  | (k', j') :: rest => fun hl => by
      by_cases h : k' = i
      · subst h
        rw [lookupJob, if_pos rfl] at hl
        have hj := Option.some.inj hl
        subst hj
        exact List.mem_cons.mpr (Or.inl rfl)
      · rw [lookupJob, if_neg h] at hl
        exact List.mem_cons.mpr (Or.inr (lookupJob_mem i j rest hl))

theorem mem_deleteJob (k : String) (p : String × Job) :
    ∀ s : Store, p ∈ deleteJob k s → p ∈ s
  | [] => by simp [deleteJob]
  | (k', j') :: rest => by
      by_cases h : k' = k
      · rw [deleteJob, if_pos h]
        intro hp
        exact List.mem_cons.mpr (Or.inr (mem_deleteJob k p rest hp))
      · rw [deleteJob, if_neg h]
        intro hp
        rcases List.mem_cons.mp hp with hh | hp'
        · exact List.mem_cons.mpr (Or.inl hh)
        · exact List.mem_cons.mpr (Or.inr (mem_deleteJob k p rest hp'))

theorem mem_setJob (k : String) (f : Job → Job) (p : String × Job) :
    ∀ s : Store, p ∈ setJob k f s → p ∈ s ∨ ∃ q ∈ s, p = (q.1, f q.2)
  | [] => by simp [setJob]
  | (k', j') :: rest => by
      by_cases h : k' = k
      · rw [setJob, if_pos h]
        intro hp
        rcases List.mem_cons.mp hp with hh | hp'
        · exact Or.inr ⟨(k', j'), List.mem_cons.mpr (Or.inl rfl), hh⟩
        · rcases mem_setJob k f p rest hp' with h' | ⟨q, hq, hpq⟩
          · exact Or.inl (List.mem_cons.mpr (Or.inr h'))
          · exact Or.inr ⟨q, List.mem_cons.mpr (Or.inr hq), hpq⟩
      · rw [setJob, if_neg h]
        intro hp
        rcases List.mem_cons.mp hp with hh | hp'
        · exact Or.inl (List.mem_cons.mpr (Or.inl hh))
        · rcases mem_setJob k f p rest hp' with h' | ⟨q, hq, hpq⟩
          · exact Or.inl (List.mem_cons.mpr (Or.inr h'))
          · exact Or.inr ⟨q, List.mem_cons.mpr (Or.inr hq), hpq⟩

theorem lookupJob_setJob_isSome (k i : String) (f : Job → Job) (s : Store) :
    (lookupJob i (setJob k f s)).isSome = (lookupJob i s).isSome := by
  by_cases h : i = k
  · subst h
    rw [lookupJob_setJob_self]
    cases lookupJob i s <;> rfl
  · rw [lookupJob_setJob_ne k i h]

/-! ### Handler lemmas -/

theorem progressUpdate_absent (jobId line : String) (s : Store)
    (h : lookupJob jobId s = none) : progressUpdate jobId line s = s := by
  unfold progressUpdate
  cases progressParse line <;> simp [h]

theorem progressUpdate_noMatch (jobId line : String) (s : Store)
    (h : progressParse line = none) : progressUpdate jobId line s = s := by
  unfold progressUpdate
  rw [h]

theorem progressUpdate_lookup_self (jobId line : String) (s : Store) (j : Job)
    (hj : lookupJob jobId s = some j) :
    lookupJob jobId (progressUpdate jobId line s) =
      match progressParse line with
      | some v => some { j with progress := v }
      | none => some j := by
  unfold progressUpdate
  cases hp : progressParse line
  · simpa using hj
  · rw [hj]
    simp [lookupJob_setJob_self, hj]

theorem progressUpdate_lookup_ne (jobId line i : String) (hne : i ≠ jobId)
    (s : Store) :
    lookupJob i (progressUpdate jobId line s) = lookupJob i s := by
  unfold progressUpdate
  cases progressParse line
  · rfl
  · cases lookupJob jobId s
    · rfl
    · exact lookupJob_setJob_ne jobId i hne _ s

theorem progressUpdate_isSome (jobId line i : String) (s : Store) :
    (lookupJob i (progressUpdate jobId line s)).isSome
      = (lookupJob i s).isSome := by
  unfold progressUpdate
  cases progressParse line
  · rfl
  · cases lookupJob jobId s
    · rfl
    · exact lookupJob_setJob_isSome jobId i _ s

theorem spawnErrorHandler_absent (jobId : String) (s : Store)
    (h : lookupJob jobId s = none) : spawnErrorHandler jobId s = s := by
  unfold spawnErrorHandler
  rw [h]

theorem spawnErrorHandler_lookup_self (jobId : String) (s : Store) (j : Job)
    (hj : lookupJob jobId s = some j) :
    lookupJob jobId (spawnErrorHandler jobId s) =
      some { j with status := .error,
                    error := some "Download process failed" } := by
  unfold spawnErrorHandler
  rw [hj]
  simp [lookupJob_setJob_self, hj]

theorem spawnErrorHandler_isSome (jobId i : String) (s : Store) :
    (lookupJob i (spawnErrorHandler jobId s)).isSome
      = (lookupJob i s).isSome := by
  unfold spawnErrorHandler
  cases lookupJob jobId s
  · rfl
  · exact lookupJob_setJob_isSome jobId i _ s

theorem closeHandler_absent (jobId : String) (code : ℤ) (s : Store)
    (h : lookupJob jobId s = none) : closeHandler jobId code s = s := by
  unfold closeHandler
  rw [h]

theorem closeHandler_zero (jobId : String) (s : Store) :
    closeHandler jobId 0 s = s := by
  unfold closeHandler
  cases lookupJob jobId s <;> simp

theorem closeHandler_lookup_self (jobId : String) (code : ℤ) (hc : code ≠ 0)
    (s : Store) (j : Job) (hj : lookupJob jobId s = some j) :
    lookupJob jobId (closeHandler jobId code s) =
      some { j with status := .error, error := some "Download failed" } := by
  unfold closeHandler
  rw [hj]
  simp [hc, lookupJob_setJob_self, hj]

theorem closeHandler_isSome (jobId : String) (code : ℤ) (i : String)
    (s : Store) :
    (lookupJob i (closeHandler jobId code s)).isSome
      = (lookupJob i s).isSome := by
  unfold closeHandler
  cases lookupJob jobId s
  · rfl
  · by_cases hc : code ≠ 0
    · simp only [if_pos hc]
      exact lookupJob_setJob_isSome jobId i _ s
    · simp only [if_neg hc]

theorem fileDiscovery_absent (jobId : String) (scan : Except Unit (List String))
    (s : Store) (h : lookupJob jobId s = none) :
    fileDiscovery jobId scan s = s := by
  unfold fileDiscovery
  cases scan <;> rw [h]

theorem fileDiscovery_scanFail (jobId : String) (u : Unit) (s : Store) (j : Job)
    (hj : lookupJob jobId s = some j) :
    lookupJob jobId (fileDiscovery jobId (.error u) s) =
      some { j with status := .error,
                    error := some "Failed to locate downloaded file" } := by
  unfold fileDiscovery
  rw [hj]
  simp [lookupJob_setJob_self, hj]

theorem fileDiscovery_found (jobId : String) (files : List String) (s : Store)
    (j : Job) (hj : lookupJob jobId s = some j) (f : String)
    (hf : jsOrNull (files.find? (fun g => strStartsWith g jobId)) = some f) :
    lookupJob jobId (fileDiscovery jobId (.ok files) s) =
      some { j with status := .completed, progress := 100, file := some f } := by
  unfold fileDiscovery
  rw [hj]
  simp only [hf, lookupJob_setJob_self, hj]
  rfl

theorem fileDiscovery_notFound (jobId : String) (files : List String)
    (s : Store) (j : Job) (hj : lookupJob jobId s = some j)
    (hf : jsOrNull (files.find? (fun g => strStartsWith g jobId)) = none) :
    lookupJob jobId (fileDiscovery jobId (.ok files) s) =
      some { j with status := .error, progress := 100, file := none,
                    error := some "File not found after download" } := by
  unfold fileDiscovery
  rw [hj]
  simp only [hf, lookupJob_setJob_self, hj]
  rfl

theorem fileDiscovery_terminal (jobId : String)
    (scan : Except Unit (List String)) (s : Store) (j : Job)
    (hj : lookupJob jobId s = some j) :
    ∃ j', lookupJob jobId (fileDiscovery jobId scan s) = some j' ∧
      (j'.status = .completed ∨ j'.status = .error) := by
  cases scan with
  | error u =>
      exact ⟨_, fileDiscovery_scanFail jobId u s j hj, Or.inr rfl⟩
  | ok files =>
      cases hf : jsOrNull (files.find? (fun g => strStartsWith g jobId)) with
      | none =>
          exact ⟨_, fileDiscovery_notFound jobId files s j hj hf, Or.inr rfl⟩
      | some f =>
          exact ⟨_, fileDiscovery_found jobId files s j hj f hf, Or.inl rfl⟩

theorem fileDiscovery_isSome (jobId : String)
    (scan : Except Unit (List String)) (i : String) (s : Store) :
    (lookupJob i (fileDiscovery jobId scan s)).isSome
      = (lookupJob i s).isSome := by
  unfold fileDiscovery
  cases scan with
  | error u =>
      cases lookupJob jobId s
      · rfl
      · rw [lookupJob_setJob_isSome, lookupJob_setJob_isSome]
  | ok files =>
      cases lookupJob jobId s
      · rfl
      · cases hf : jsOrNull (files.find? (fun g => strStartsWith g jobId)) <;>
          simp only [hf] <;> simp only [lookupJob_setJob_isSome]

/-! ### Sweep lemmas -/

/-- Exhaustive description of a successful `sweepStep`. -/
theorem sweepStep_shape (now : ℤ) (acc : Store × FS) (k : String)
    (acc' : Store × FS) (h : sweepStep now acc k = .ok acc') :
    (acc' = acc ∧
      (lookupJob k acc.1 = none ∨
        ∃ job, lookupJob k acc.1 = some job ∧
          ¬ now - job.createdAt > JOB_CLEANUP_TIME)) ∨
    (∃ job, lookupJob k acc.1 = some job ∧
      now - job.createdAt > JOB_CLEANUP_TIME ∧
      acc'.1 = deleteJob k acc.1 ∧
      (((job.file = none ∨ job.file = some "" ∨
          ∃ f, job.file = some f ∧ f ∉ acc.2.files) ∧ acc'.2 = acc.2) ∨
        ∃ f, job.file = some f ∧ f ≠ "" ∧ f ∈ acc.2.files ∧
          f ∉ acc.2.undeletable ∧
          acc'.2 = { acc.2 with files := acc.2.files.filter (· ≠ f) })) := by
  unfold sweepStep unlink at h
  split at h
  · rename_i heq
    exact Or.inl ⟨(Except.ok.inj h).symm, Or.inl heq⟩
  · rename_i job heq
    split at h
    · rename_i he
      split at h
      · rename_i f hfile
        split at h
        · rename_i hemp
          have hacc := (Except.ok.inj h).symm
          refine Or.inr ⟨job, heq, he, by rw [hacc], ?_⟩
          exact Or.inl ⟨Or.inr (Or.inl (by rw [hfile, hemp])), by rw [hacc]⟩
        · rename_i hemp
          split at h
          · rename_i hmem
            split at h
            · rename_i e hund
              simp at h
            · rename_i fs' hund
              by_cases hu : f ∈ acc.2.undeletable
              · rw [if_pos hu] at hund
                exact absurd hund (by simp)
              · rw [if_neg hu] at hund
                have hfs := Except.ok.inj hund
                have hacc := (Except.ok.inj h).symm
                refine Or.inr ⟨job, heq, he, by rw [hacc], ?_⟩
                refine Or.inr ⟨f, hfile, hemp, hmem, hu, ?_⟩
                rw [hacc]
                exact hfs.symm
          · rename_i hmem
            have hacc := (Except.ok.inj h).symm
            refine Or.inr ⟨job, heq, he, by rw [hacc], ?_⟩
            exact Or.inl ⟨Or.inr (Or.inr ⟨f, hfile, hmem⟩), by rw [hacc]⟩
      · rename_i hfile
        have hacc := (Except.ok.inj h).symm
        refine Or.inr ⟨job, heq, he, by rw [hacc], ?_⟩
        exact Or.inl ⟨Or.inl hfile, by rw [hacc]⟩
    · rename_i he
      exact Or.inl ⟨(Except.ok.inj h).symm, Or.inr ⟨job, heq, he⟩⟩

/-- A step succeeds whenever the record it may delete has no undeletable
backing file. -/
theorem sweepStep_isOk (now : ℤ) (acc : Store × FS) (k : String)
    (h : ∀ job, lookupJob k acc.1 = some job →
          now - job.createdAt > JOB_CLEANUP_TIME →
          ∀ f, job.file = some f → f ∉ acc.2.undeletable) :
    ∃ acc', sweepStep now acc k = .ok acc' := by
  unfold sweepStep unlink
  split
  · exact ⟨acc, rfl⟩
  · rename_i job heq
    split
    · rename_i he
      split
      · rename_i f hfile
        split
        · exact ⟨_, rfl⟩
        · split
          · rename_i hemp hmem
            rw [if_neg (h job heq he f hfile)]
            exact ⟨_, rfl⟩
          · exact ⟨_, rfl⟩
      · exact ⟨_, rfl⟩
    · exact ⟨acc, rfl⟩

theorem sweepStep_mem (now : ℤ) (acc acc' : Store × FS) (k : String)
    (h : sweepStep now acc k = .ok acc') : ∀ p ∈ acc'.1, p ∈ acc.1 := by
  intro p hp
  rcases sweepStep_shape now acc k acc' h with ⟨rfl, _⟩ | ⟨job, _, _, hst, _⟩
  · exact hp
  · rw [hst] at hp
    exact mem_deleteJob k p acc.1 hp

theorem sweepStep_files_sub (now : ℤ) (acc acc' : Store × FS) (k : String)
    (h : sweepStep now acc k = .ok acc') :
    ∀ f ∈ acc'.2.files, f ∈ acc.2.files := by
  intro f hf
  rcases sweepStep_shape now acc k acc' h with ⟨rfl, _⟩ | ⟨job, _, _, _, hfs⟩
  · exact hf
  · rcases hfs with ⟨_, hfs⟩ | ⟨g, _, _, _, _, hfs⟩
    · rw [hfs] at hf
      exact hf
    · rw [hfs] at hf
      exact (List.mem_filter.mp hf).1

theorem sweepStep_undeletable (now : ℤ) (acc acc' : Store × FS) (k : String)
    (h : sweepStep now acc k = .ok acc') :
    acc'.2.undeletable = acc.2.undeletable := by
  rcases sweepStep_shape now acc k acc' h with ⟨rfl, _⟩ | ⟨job, _, _, _, hfs⟩
  · rfl
  · rcases hfs with ⟨_, hfs⟩ | ⟨g, _, _, _, _, hfs⟩ <;> rw [hfs]

theorem sweepStep_keeps_fresh (now : ℤ) (acc acc' : Store × FS) (k : String)
    (h : sweepStep now acc k = .ok acc') (i : String) (j : Job)
    (hi : lookupJob i acc.1 = some j)
    (hy : ¬ now - j.createdAt > JOB_CLEANUP_TIME) :
    lookupJob i acc'.1 = some j := by
  rcases sweepStep_shape now acc k acc' h with ⟨rfl, _⟩ | ⟨job, hk, he, hst, _⟩
  · exact hi
  · by_cases hik : i = k
    · subst hik
      rw [hi] at hk
      exact absurd ((Option.some.inj hk) ▸ he) hy
    · rw [hst, lookupJob_deleteJob_ne k i hik]
      exact hi

theorem sweepStep_keeps_none (now : ℤ) (acc acc' : Store × FS) (k : String)
    (h : sweepStep now acc k = .ok acc') (i : String)
    (hi : lookupJob i acc.1 = none) : lookupJob i acc'.1 = none := by
  rcases sweepStep_shape now acc k acc' h with ⟨rfl, _⟩ | ⟨job, hk, he, hst, _⟩
  · exact hi
  · by_cases hik : i = k
    · subst hik
      rw [hst]
      exact lookupJob_deleteJob_self i acc.1
    · rw [hst, lookupJob_deleteJob_ne k i hik]
      exact hi

theorem sweepStep_expired (now : ℤ) (acc acc' : Store × FS) (k : String)
    (h : sweepStep now acc k = .ok acc') (job : Job)
    (hk : lookupJob k acc.1 = some job)
    (he : now - job.createdAt > JOB_CLEANUP_TIME) :
    lookupJob k acc'.1 = none ∧
      ∀ f, job.file = some f → f ≠ "" → f ∉ acc'.2.files := by
  rcases sweepStep_shape now acc k acc' h with
    ⟨rfl, hno | ⟨job', hk', hy⟩⟩ | ⟨job', hk', he', hst, hfs⟩
  · rw [hk] at hno
    cases hno
  · rw [hk] at hk'
    exact absurd ((Option.some.inj hk') ▸ he) hy
  · rw [hk] at hk'
    have hjj := Option.some.inj hk'
    subst hjj
    refine ⟨by rw [hst]; exact lookupJob_deleteJob_self k acc.1, ?_⟩
    intro f hf hne
    rcases hfs with ⟨hcase, hfs2⟩ | ⟨g, hg, hgne, hgmem, hgund, hfs2⟩
    · rcases hcase with hnone | hsome | ⟨g, hg, hgmem⟩
      · rw [hf] at hnone
        cases hnone
      · rw [hf] at hsome
        exact absurd (Option.some.inj hsome) hne
      · rw [hf] at hg
        have := Option.some.inj hg
        subst this
        rw [hfs2]
        exact hgmem
    · rw [hf] at hg
      have := Option.some.inj hg
      subst this
      rw [hfs2]
      intro hmem
      have := (List.mem_filter.mp hmem).2
      simp at this

theorem sweepStep_keeps_file (now : ℤ) (acc acc' : Store × FS) (k : String)
    (h : sweepStep now acc k = .ok acc') (f : String) (hf : f ∈ acc.2.files)
    (hsafe : ∀ p ∈ acc.1, now - (p.2 : Job).createdAt > JOB_CLEANUP_TIME →
      (p.2 : Job).file ≠ some f) :
    f ∈ acc'.2.files := by
  rcases sweepStep_shape now acc k acc' h with ⟨rfl, _⟩ | ⟨job, hk, he, hst, hfs⟩
  · exact hf
  · rcases hfs with ⟨_, hfs2⟩ | ⟨g, hg, hgne, hgmem, hgund, hfs2⟩
    · rw [hfs2]
      exact hf
    · rw [hfs2]
      refine List.mem_filter.mpr ⟨hf, ?_⟩
      have hmem := lookupJob_mem k job acc.1 hk
      have hne := hsafe (k, job) hmem he
      simp only [decide_eq_true_eq]
      intro hfg
      rw [← hfg] at hg
      exact hne hg

theorem sweepFold_cons_ok (now : ℤ) (acc acc' : Store × FS) (k : String)
    (ks : List String) (h : sweepStep now acc k = .ok acc') :
    List.foldlM (sweepStep now) acc (k :: ks)
      = List.foldlM (sweepStep now) acc' ks := by
  rw [List.foldlM_cons, h]
  rfl

theorem sweepFold_cons_err (now : ℤ) (acc : Store × FS) (k : String)
    (ks : List String) (e : String) (h : sweepStep now acc k = .error e) :
    List.foldlM (sweepStep now) acc (k :: ks) = .error e := by
  rw [List.foldlM_cons, h]
  rfl

theorem sweepFold_mem (now : ℤ) :
    ∀ (ks : List String) (acc out : Store × FS),
      List.foldlM (sweepStep now) acc ks = .ok out → ∀ p ∈ out.1, p ∈ acc.1
  | [], acc, out, h => by
      have : acc = out := Except.ok.inj h
      intro p hp
      rw [this]
      exact hp
  | k :: ks, acc, out, h => by
      cases hstep : sweepStep now acc k with
      | error e => rw [sweepFold_cons_err now acc k ks e hstep] at h; cases h
      | ok acc₁ =>
          rw [sweepFold_cons_ok now acc acc₁ k ks hstep] at h
          intro p hp
          exact sweepStep_mem now acc acc₁ k hstep p
            (sweepFold_mem now ks acc₁ out h p hp)

theorem sweepFold_files_sub (now : ℤ) :
    ∀ (ks : List String) (acc out : Store × FS),
      List.foldlM (sweepStep now) acc ks = .ok out →
      ∀ f ∈ out.2.files, f ∈ acc.2.files
  | [], acc, out, h => by
      have : acc = out := Except.ok.inj h
      intro f hf
      rw [this]
      exact hf
  | k :: ks, acc, out, h => by
      cases hstep : sweepStep now acc k with
      | error e => rw [sweepFold_cons_err now acc k ks e hstep] at h; cases h
      | ok acc₁ =>
          rw [sweepFold_cons_ok now acc acc₁ k ks hstep] at h
          intro f hf
          exact sweepStep_files_sub now acc acc₁ k hstep f
            (sweepFold_files_sub now ks acc₁ out h f hf)

theorem sweepFold_keeps_fresh (now : ℤ) :
    ∀ (ks : List String) (acc out : Store × FS),
      List.foldlM (sweepStep now) acc ks = .ok out →
      ∀ (i : String) (j : Job), lookupJob i acc.1 = some j →
        ¬ now - j.createdAt > JOB_CLEANUP_TIME → lookupJob i out.1 = some j
  | [], acc, out, h => by
      have : acc = out := Except.ok.inj h
      intro i j hi _
      rw [← this]
      exact hi
  | k :: ks, acc, out, h => by
      cases hstep : sweepStep now acc k with
      | error e => rw [sweepFold_cons_err now acc k ks e hstep] at h; cases h
      | ok acc₁ =>
          rw [sweepFold_cons_ok now acc acc₁ k ks hstep] at h
          intro i j hi hy
          exact sweepFold_keeps_fresh now ks acc₁ out h i j
            (sweepStep_keeps_fresh now acc acc₁ k hstep i j hi hy) hy

theorem sweepFold_keeps_none (now : ℤ) :
    ∀ (ks : List String) (acc out : Store × FS),
      List.foldlM (sweepStep now) acc ks = .ok out →
      ∀ i : String, lookupJob i acc.1 = none → lookupJob i out.1 = none
  | [], acc, out, h => by
      have : acc = out := Except.ok.inj h
      intro i hi
      rw [← this]
      exact hi
  | k :: ks, acc, out, h => by
      cases hstep : sweepStep now acc k with
      | error e => rw [sweepFold_cons_err now acc k ks e hstep] at h; cases h
      | ok acc₁ =>
          rw [sweepFold_cons_ok now acc acc₁ k ks hstep] at h
          intro i hi
          exact sweepFold_keeps_none now ks acc₁ out h i
            (sweepStep_keeps_none now acc acc₁ k hstep i hi)

theorem sweepFold_file_stays_out (now : ℤ) :
    ∀ (ks : List String) (acc out : Store × FS),
      List.foldlM (sweepStep now) acc ks = .ok out →
      ∀ f : String, f ∉ acc.2.files → f ∉ out.2.files := by
  intro ks acc out h f hf hmem
  exact hf (sweepFold_files_sub now ks acc out h f hmem)

theorem sweepFold_expired (now : ℤ) :
    ∀ (ks : List String) (acc out : Store × FS),
      List.foldlM (sweepStep now) acc ks = .ok out →
      ∀ (i : String) (j : Job), i ∈ ks → lookupJob i acc.1 = some j →
        now - j.createdAt > JOB_CLEANUP_TIME →
        lookupJob i out.1 = none ∧
          ∀ f, j.file = some f → f ≠ "" → f ∉ out.2.files
  | [], acc, out, h => by
      intro i j hik
      cases hik
  | k :: ks, acc, out, h => by
      cases hstep : sweepStep now acc k with
      | error e => rw [sweepFold_cons_err now acc k ks e hstep] at h; cases h
      | ok acc₁ =>
          rw [sweepFold_cons_ok now acc acc₁ k ks hstep] at h
          intro i j hik hi he
          by_cases hk : i = k
          · subst hk
            have hexp := sweepStep_expired now acc acc₁ i hstep j hi he
            refine ⟨sweepFold_keeps_none now ks acc₁ out h i hexp.1, ?_⟩
            intro f hf hne
            exact sweepFold_file_stays_out now ks acc₁ out h f (hexp.2 f hf hne)
          · have hik' : i ∈ ks := by
              rcases List.mem_cons.mp hik with hc | hc
              · exact absurd hc hk
              · exact hc
            have hi₁ : lookupJob i acc₁.1 = some j := by
              rcases sweepStep_shape now acc k acc₁ hstep with
                ⟨rfl, _⟩ | ⟨job, _, _, hst, _⟩
              · exact hi
              · rw [hst, lookupJob_deleteJob_ne k i hk]
                exact hi
            exact sweepFold_expired now ks acc₁ out h i j hik' hi₁ he

theorem sweepFold_keeps_file (now : ℤ) :
    ∀ (ks : List String) (acc out : Store × FS),
      List.foldlM (sweepStep now) acc ks = .ok out →
      ∀ f ∈ acc.2.files,
        (∀ p ∈ acc.1, now - (p.2 : Job).createdAt > JOB_CLEANUP_TIME →
          (p.2 : Job).file ≠ some f) →
        f ∈ out.2.files
  | [], acc, out, h => by
      have : acc = out := Except.ok.inj h
      intro f hf _
      rw [← this]
      exact hf
  | k :: ks, acc, out, h => by
      cases hstep : sweepStep now acc k with
      | error e => rw [sweepFold_cons_err now acc k ks e hstep] at h; cases h
      | ok acc₁ =>
          rw [sweepFold_cons_ok now acc acc₁ k ks hstep] at h
          intro f hf hsafe
          refine sweepFold_keeps_file now ks acc₁ out h f
            (sweepStep_keeps_file now acc acc₁ k hstep f hf hsafe) ?_
          intro p hp
          exact hsafe p (sweepStep_mem now acc acc₁ k hstep p hp)

theorem sweepFold_isOk (now : ℤ) :
    ∀ (ks : List String) (acc : Store × FS),
      (∀ p ∈ acc.1, now - (p.2 : Job).createdAt > JOB_CLEANUP_TIME →
        ∀ f, (p.2 : Job).file = some f → f ∉ acc.2.undeletable) →
      ∃ out, List.foldlM (sweepStep now) acc ks = .ok out
  | [], acc, _ => ⟨acc, rfl⟩
  | k :: ks, acc, hsafe => by
      have hstep : ∃ acc', sweepStep now acc k = .ok acc' := by
        refine sweepStep_isOk now acc k ?_
        intro job hk he f hfp
        exact hsafe (k, job) (lookupJob_mem k job acc.1 hk) he f hfp
      rcases hstep with ⟨acc₁, hstep⟩
      have hsafe₁ : ∀ p ∈ acc₁.1,
          now - (p.2 : Job).createdAt > JOB_CLEANUP_TIME →
          ∀ f, (p.2 : Job).file = some f → f ∉ acc₁.2.undeletable := by
        intro p hp he f hfp
        rw [sweepStep_undeletable now acc acc₁ k hstep]
        exact hsafe p (sweepStep_mem now acc acc₁ k hstep p hp) he f hfp
      rcases sweepFold_isOk now ks acc₁ hsafe₁ with ⟨out, hout⟩
      exact ⟨out, by rw [sweepFold_cons_ok now acc acc₁ k ks hstep]; exact hout⟩

theorem takeWhile_digits (x : Char) (r : List Char) (hx : x.isDigit = false) :
    ∀ d : List Char, (∀ c ∈ d, c.isDigit = true) →
      (d ++ x :: r).takeWhile (·.isDigit) = d
  | [], _ => by simp [List.takeWhile_cons, hx]
  | c :: cs, hd => by
      have hc : c.isDigit = true := hd c (List.mem_cons.mpr (Or.inl rfl))
      simp only [List.cons_append, List.takeWhile_cons, hc, if_true]
      rw [takeWhile_digits x r hx cs
        (fun a ha => hd a (List.mem_cons.mpr (Or.inr ha)))]

theorem dropWhile_digits (x : Char) (r : List Char) (hx : x.isDigit = false) :
    ∀ d : List Char, (∀ c ∈ d, c.isDigit = true) →
      (d ++ x :: r).dropWhile (·.isDigit) = x :: r
  | [], _ => by simp [List.dropWhile_cons, hx]
  | c :: cs, hd => by
      have hc : c.isDigit = true := hd c (List.mem_cons.mpr (Or.inl rfl))
      simp only [List.cons_append, List.dropWhile_cons, hc, if_true]
      exact dropWhile_digits x r hx cs
        (fun a ha => hd a (List.mem_cons.mpr (Or.inr ha)))

theorem span_digits_exact (x : Char) (r : List Char) (hx : x.isDigit = false)
    (d : List Char) (hd : ∀ c ∈ d, c.isDigit = true) :
    (d ++ x :: r).span (·.isDigit) = (d, x :: r) := by
  rw [List.span_eq_take_drop, takeWhile_digits x r hx d hd,
    dropWhile_digits x r hx d hd]

theorem pctAt_complete (d1 d2 post : List Char) (h1 : d1 ≠ []) (h2 : d2 ≠ [])
    (hd1 : ∀ c ∈ d1, c.isDigit = true) (hd2 : ∀ c ∈ d2, c.isDigit = true) :
    pctAt (d1 ++ '.' :: (d2 ++ '%' :: post)) = some (d1, d2) := by
  unfold pctAt
  rw [takeWhile_digits '.' (d2 ++ '%' :: post) (by decide) d1 hd1,
    dropWhile_digits '.' (d2 ++ '%' :: post) (by decide) d1 hd1, if_neg h1]
  simp [takeWhile_digits '%' post (by decide) d2 hd2,
    dropWhile_digits '%' post (by decide) d2 hd2, h2]

theorem pctAt_sound (cs : List Char) (d1 d2 : List Char)
    (h : pctAt cs = some (d1, d2)) :
    ∃ post, cs = d1 ++ '.' :: (d2 ++ '%' :: post) ∧ d1 ≠ [] ∧ d2 ≠ [] ∧
      (∀ c ∈ d1, c.isDigit = true) ∧ (∀ c ∈ d2, c.isDigit = true) := by
  unfold pctAt at h
  split at h
  · cases h
  · rename_i hne1
    split at h
    · rename_i r2 hdr1
      split at h
      · cases h
      · rename_i hne2
        split at h
        · rename_i tail hdr2
          obtain ⟨he1, he2⟩ := Prod.mk.inj (Option.some.inj h)
          refine ⟨tail, ?_, ?_, ?_, ?_, ?_⟩
          · rw [← he1, ← he2]
            conv_lhs => rw [← List.takeWhile_append_dropWhile
              (p := (·.isDigit)) (l := cs)]
            rw [hdr1]
            have hr2 : r2 = List.takeWhile (·.isDigit) r2 ++ '%' :: tail := by
              conv_lhs => rw [← List.takeWhile_append_dropWhile
                (p := (·.isDigit)) (l := r2)]
              rw [hdr2]
            conv_lhs => rw [hr2]
          · rw [← he1]; exact hne1
          · rw [← he2]; exact hne2
          · intro c hc
            rw [← he1] at hc
            exact List.mem_takeWhile_imp hc
          · intro c hc
            rw [← he2] at hc
            exact List.mem_takeWhile_imp hc
        · cases h
    · cases h

theorem findPct_sound :
    ∀ (s : List Char) (d1 d2 : List Char), findPct s = some (d1, d2) →
      ∃ pre post, s = pre ++ d1 ++ '.' :: (d2 ++ '%' :: post) ∧
        d1 ≠ [] ∧ d2 ≠ [] ∧
        (∀ c ∈ d1, c.isDigit = true) ∧ (∀ c ∈ d2, c.isDigit = true)
  | [], d1, d2, h => by cases h
  | c :: rest, d1, d2, h => by
      rw [findPct] at h
      cases hp : pctAt (c :: rest) with
      | some g =>
          rw [hp] at h
          have hg := Option.some.inj h
          subst hg
          rcases pctAt_sound (c :: rest) d1 d2 hp with ⟨post, hdec, h1, h2, hA, hB⟩
          exact ⟨[], post, by simp [← hdec], h1, h2, hA, hB⟩
      | none =>
          rw [hp] at h
          rcases findPct_sound rest d1 d2 h with ⟨pre, post, hdec, h1, h2, hA, hB⟩
          exact ⟨c :: pre, post, by simp [hdec], h1, h2, hA, hB⟩

theorem findPct_complete_aux (d1 d2 post : List Char) (h1 : d1 ≠ [])
    (h2 : d2 ≠ []) (hd1 : ∀ c ∈ d1, c.isDigit = true)
    (hd2 : ∀ c ∈ d2, c.isDigit = true) :
    ∀ pre : List Char,
      (findPct (pre ++ d1 ++ '.' :: (d2 ++ '%' :: post))).isSome = true
  | [] => by
      rcases List.exists_cons_of_ne_nil h1 with ⟨a, as, rfl⟩
      rw [List.nil_append, List.cons_append, findPct,
        show (a :: (as ++ '.' :: (d2 ++ '%' :: post)))
          = ((a :: as) ++ '.' :: (d2 ++ '%' :: post)) from by simp,
        pctAt_complete (a :: as) d2 post (by simp) h2 hd1 hd2]
      rfl
  | c :: pre => by
      rw [List.cons_append, List.cons_append, findPct]
      cases hp : pctAt (c :: (pre ++ d1 ++ '.' :: (d2 ++ '%' :: post))) with
      | some g => rfl
      | none => exact findPct_complete_aux d1 d2 post h1 h2 hd1 hd2 pre

theorem findPct_iff (s : List Char) :
    (findPct s).isSome = true ↔ PctPattern s := by
  constructor
  · intro h
    cases hf : findPct s with
    | none => rw [hf] at h; cases h
    | some g =>
        rcases findPct_sound s g.1 g.2 (by rw [hf]) with
          ⟨pre, post, hdec, h1, h2, hA, hB⟩
        exact ⟨pre, g.1, g.2, post, hdec, h1, h2, hA, hB⟩
  · rintro ⟨pre, d1, d2, post, hdec, h1, h2, hA, hB⟩
    rw [hdec]
    exact findPct_complete_aux d1 d2 post h1 h2 hA hB pre

/-- The numeric value of the captured decimal literal, in human-readable
form: integer part plus fraction part over a power of ten. -/
theorem decValue_eq (d1 d2 : List Char) :
    decValue d1 d2
      = (digitsVal d1 : ℚ) + (digitsVal d2 : ℚ) / (10 : ℚ) ^ d2.length := by
  unfold decValue
  rw [Rat.mkRat_eq_div]
  have hpow : ((10 : ℚ) ^ d2.length) ≠ 0 := by positivity
  push_cast
  field_simp

theorem decValue_nonneg (d1 d2 : List Char) : 0 ≤ decValue d1 d2 := by
  rw [decValue_eq]
  positivity

theorem progressParse_nonneg (line : String) (v : ℚ)
    (h : progressParse line = some v) : 0 ≤ v := by
  unfold progressParse at h
  cases hf : findPct line.data with
  | none => rw [hf] at h; cases h
  | some g =>
      rw [hf] at h
      have := Option.some.inj h
      rw [← this]
      exact decValue_nonneg g.1 g.2

/-! ### Traces of a single job's callbacks -/

theorem progressUpdate_keeps (jobId line : String) (s : Store) (j : Job)
    (hj : lookupJob jobId s = some j) :
    ∃ j', lookupJob jobId (progressUpdate jobId line s) = some j' ∧
      j'.status = j.status := by
  rw [progressUpdate_lookup_self jobId line s j hj]
  cases progressParse line
  · exact ⟨j, rfl, rfl⟩
  · exact ⟨_, rfl, rfl⟩

theorem linesStates_trace_head (jobId : String) :
    ∀ (lines : List String) (s : Store) (j : Job),
      lookupJob jobId s = some j →
      ∃ rest, (linesStates jobId lines s).filterMap
          (fun st => (lookupJob jobId st).map Job.progress)
        = j.progress :: rest
  | [], s, j, hj => ⟨[], by simp [linesStates, hj]⟩
  | l :: ls, s, j, hj =>
      ⟨(linesStates jobId ls (progressUpdate jobId l s)).filterMap
          (fun st => (lookupJob jobId st).map Job.progress),
        by simp [linesStates, List.filterMap_cons, hj]⟩

theorem linesStates_chain (jobId : String) :
    ∀ (lines : List String) (s : Store) (j : Job),
      lookupJob jobId s = some j →
      List.Chain' (· ≤ ·) (j.progress :: lines.filterMap progressParse) →
      List.Chain' (· ≤ ·)
        ((linesStates jobId lines s).filterMap
          (fun st => (lookupJob jobId st).map Job.progress))
  | [], s, j, hj, hch => by simp [linesStates, hj]
  | l :: ls, s, j, hj, hch => by
      rw [linesStates, List.filterMap_cons]
      simp only [hj, Option.map_some']
      cases hp : progressParse l with
      | none =>
          have hs' : progressUpdate jobId l s = s :=
            progressUpdate_noMatch jobId l s hp
          have hvs : (l :: ls).filterMap progressParse
              = ls.filterMap progressParse := by
            rw [List.filterMap_cons, hp]
          rw [hvs] at hch
          have ih := linesStates_chain jobId ls s j hj hch
          rw [hs']
          rcases linesStates_trace_head jobId ls s j hj with ⟨rest, hhead⟩
          rw [hhead] at ih ⊢
          exact List.chain'_cons.mpr ⟨le_refl _, ih⟩
      | some v =>
          have hvs : (l :: ls).filterMap progressParse
              = v :: ls.filterMap progressParse := by
            rw [List.filterMap_cons, hp]
          rw [hvs] at hch
          have hch2 := List.chain'_cons.mp hch
          have hlook : lookupJob jobId (progressUpdate jobId l s)
              = some { j with progress := v } := by
            rw [progressUpdate_lookup_self jobId l s j hj, hp]
          have ih := linesStates_chain jobId ls (progressUpdate jobId l s)
            { j with progress := v } hlook (by simpa using hch2.2)
          rcases linesStates_trace_head jobId ls (progressUpdate jobId l s)
            { j with progress := v } hlook with ⟨rest, hhead⟩
          rw [hhead] at ih ⊢
          exact List.chain'_cons.mpr ⟨hch2.1, ih⟩

theorem runStates_trace (jobId : String) :
    ∀ (lines : List String) (tail : RunTail) (s : Store) (j : Job),
      lookupJob jobId s = some j → j.status = .downloading →
      ∃ (k : ℕ) (t : Status),
        statusTrace jobId (runStates jobId lines tail s)
          = List.replicate k .downloading ++ [t] ∧
        (t = Status.completed ∨ t = Status.error)
  | l :: ls, tail, s, j, hj, hst => by
      rcases progressUpdate_keeps jobId l s j hj with ⟨j', hj', hst'⟩
      rcases runStates_trace jobId ls tail (progressUpdate jobId l s) j' hj'
        (hst' ▸ hst) with ⟨k, t, htr, ht⟩
      refine ⟨k + 1, t, ?_, ht⟩
      rw [runStates]
      unfold statusTrace at htr ⊢
      rw [List.filterMap_cons]
      simp only [hj, Option.map_some', hst, htr, List.replicate_succ,
        List.cons_append]
  | [], .launchFail, s, j, hj, hst => by
      refine ⟨1, .error, ?_, Or.inr rfl⟩
      unfold statusTrace runStates
      rw [List.filterMap_cons, List.filterMap_cons]
      simp [hj, hst, spawnErrorHandler_lookup_self jobId s j hj]
  | [], .exits code scan, s, j, hj, hst => by
      by_cases hc : code = 0
      · subst hc
        rw [runStates, if_pos rfl, hj]
        rcases fileDiscovery_terminal jobId scan s j hj with ⟨j', hj', hterm⟩
        refine ⟨1, j'.status, ?_, hterm⟩
        unfold statusTrace
        rw [List.filterMap_cons, List.filterMap_cons]
        simp [hj, hst, hj']
      · rw [runStates, if_neg hc]
        refine ⟨1, .error, ?_, Or.inr rfl⟩
        unfold statusTrace
        rw [List.filterMap_cons, List.filterMap_cons]
        simp [hj, hst, closeHandler_lookup_self jobId code hc s j hj]

theorem goodStore_setJob (k : String) (f : Job → Job) (s : Store)
    (hs : GoodStore s)
    (hf : ∀ j : Job, StatusStored j.status → StatusStored (f j).status) :
    GoodStore (setJob k f s) := by
  intro p hp
  rcases mem_setJob k f p s hp with h | ⟨q, hq, rfl⟩
  · exact hs p h
  · exact hf q.2 (hs q hq)

theorem goodStore_submit (jobId : String) (now : ℤ) (s : Store)
    (hs : GoodStore s) : GoodStore (submitDownload jobId now s) := by
  intro p hp
  rcases List.mem_append.mp hp with h | h
  · exact hs p h
  · rw [List.mem_singleton.mp h]
    exact Or.inl rfl

theorem goodStore_progressUpdate (jobId line : String) (s : Store)
    (hs : GoodStore s) : GoodStore (progressUpdate jobId line s) := by
  unfold progressUpdate
  cases progressParse line
  · exact hs
  · cases lookupJob jobId s
    · exact hs
    · exact goodStore_setJob _ _ s hs (fun j hj => hj)

theorem goodStore_spawnError (jobId : String) (s : Store)
    (hs : GoodStore s) : GoodStore (spawnErrorHandler jobId s) := by
  unfold spawnErrorHandler
  cases lookupJob jobId s
  · exact hs
  · exact goodStore_setJob _ _ s hs (fun j _ => Or.inr (Or.inr rfl))

theorem goodStore_close (jobId : String) (code : ℤ) (s : Store)
    (hs : GoodStore s) : GoodStore (closeHandler jobId code s) := by
  unfold closeHandler
  cases lookupJob jobId s
  · exact hs
  · by_cases hc : code ≠ 0
    · rw [if_pos hc]
      exact goodStore_setJob _ _ s hs (fun j _ => Or.inr (Or.inr rfl))
    · rw [if_neg hc]
      exact hs

theorem goodStore_fileDiscovery (jobId : String)
    (scan : Except Unit (List String)) (s : Store) (hs : GoodStore s) :
    GoodStore (fileDiscovery jobId scan s) := by
  unfold fileDiscovery
  split
  · split
    · exact hs
    · exact goodStore_setJob _ _ _
        (goodStore_setJob _ _ s hs (fun j _ => Or.inr (Or.inr rfl)))
        (fun j hj => hj)
  · split
    · exact hs
    · split
      · refine goodStore_setJob _ _ _ ?_ (fun j hj => hj)
        refine goodStore_setJob _ _ _ ?_ (fun j hj => hj)
        exact goodStore_setJob _ _ s hs (fun j _ => Or.inr (Or.inl rfl))
      · refine goodStore_setJob _ _ _ ?_ (fun j hj => hj)
        refine goodStore_setJob _ _ _ ?_ (fun j _ => Or.inr (Or.inr rfl))
        refine goodStore_setJob _ _ _ ?_ (fun j hj => hj)
        refine goodStore_setJob _ _ _ ?_ (fun j hj => hj)
        exact goodStore_setJob _ _ s hs (fun j _ => Or.inr (Or.inl rfl))

theorem goodStore_fileDiscoverySteps (jobId : String)
    (scan : Except Unit (List String)) (s : Store) (hs : GoodStore s) :
    ∀ st ∈ fileDiscoverySteps jobId scan s, GoodStore st := by
  intro st hst
  unfold fileDiscoverySteps at hst
  have hA : GoodStore (setJob jobId
      (fun j => { j with status := Status.completed }) s) :=
    goodStore_setJob _ _ s hs (fun j _ => Or.inr (Or.inl rfl))
  have hB := goodStore_setJob jobId
    (fun j => { j with progress := (100 : ℚ) }) _ hA (fun j hj => hj)
  have hE : GoodStore (setJob jobId
      (fun j => { j with status := Status.error }) s) :=
    goodStore_setJob _ _ s hs (fun j _ => Or.inr (Or.inr rfl))
  split at hst
  · split at hst
    · cases hst
    · simp only [List.mem_cons, List.not_mem_nil, or_false] at hst
      rcases hst with rfl | rfl
      · exact hE
      · exact goodStore_setJob _ _ _ hE (fun j hj => hj)
  · split at hst
    · cases hst
    · split at hst
      · simp only [List.mem_cons, List.not_mem_nil, or_false] at hst
        rcases hst with rfl | rfl | rfl
        · exact hA
        · exact hB
        · exact goodStore_setJob _ _ _ hB (fun j hj => hj)
      · have hC := goodStore_setJob jobId
          (fun j => { j with file := (none : Option String) }) _ hB
          (fun j hj => hj)
        have hD := goodStore_setJob jobId
          (fun j => { j with status := Status.error }) _ hC
          (fun j _ => Or.inr (Or.inr rfl))
        simp only [List.mem_cons, List.not_mem_nil, or_false] at hst
        rcases hst with rfl | rfl | rfl | rfl | rfl
        · exact hA
        · exact hB
        · exact hC
        · exact hD
        · exact goodStore_setJob _ _ _ hD (fun j hj => hj)

theorem goodStore_sweep (now : ℤ) (jobs : Store) (fs : FS)
    (jobs' : Store) (fs' : FS)
    (h : cleanupSweep now jobs fs = .ok (jobs', fs')) (hs : GoodStore jobs) :
    GoodStore jobs' := by
  intro p hp
  exact hs p
    (sweepFold_mem now (jobs.map Prod.fst) (jobs, fs) (jobs', fs') h p hp)

/-! ### Claim theorems -/

/-- C1: the claim says a per-record failure (e.g. an error while deleting
one job's backing file) is swallowed and the sweep continues.  The code has
no try/catch in the timer callback, so the claim fails: with two expired
jobs whose files both exist and the first file undeletable, the sweep
callback propagates the `unlinkSync` exception and the second record is
never examined — while the same sweep with no failing delete removes both
records and both files, isolating the abort to the per-record failure. -/
theorem C1_sweep_abort_eval :
    cleanupSweep (JOB_CLEANUP_TIME + 1) [("a", expiredJobA), ("b", expiredJobB)]
        { files := ["a.mp4", "b.mp4"], undeletable := ["a.mp4"] }
      = Except.error "unlink failed" ∧
    cleanupSweep (JOB_CLEANUP_TIME + 1) [("a", expiredJobA), ("b", expiredJobB)]
        { files := ["a.mp4", "b.mp4"], undeletable := [] }
      = Except.ok ([], { files := [], undeletable := [] }) :=
  ⟨rfl, rfl⟩

/-- C2 (counterexample): when the process exits 0 and no file with the job
id as a name prefix exists, the settling-delay handler assigns
status=completed (and progress=100, file=null) and then assigns
status=error — the record passes through completed and is subsequently set
to error, refuting the claim as stated. -/
theorem C2_counterexample :
    (fileDiscoverySteps "j" (Except.ok []) [("j", initialJob 0)]).map
        (fun st => (lookupJob "j" st).map Job.status)
      = [some Status.completed, some Status.completed, some Status.completed,
         some Status.error, some Status.error] := rfl

/-- C2 (amended): at the granularity of whole handler invocations, a job
created with status=downloading keeps status=downloading through every
output-line update and then moves to exactly one terminal status
(completed or error) at the terminal event, never regressing and never
showing completed followed by error; only inside the file-not-found branch
of the file-discovery handler is completed transiently assigned before
being overwritten by error within the same synchronous handler. -/
theorem C2_amended_run_trace (jobId : String) (lines : List String)
    (tail : RunTail) (s : Store) (j : Job)
    (hj : lookupJob jobId s = some j) (hst : j.status = .downloading) :
    ∃ (k : ℕ) (t : Status),
      statusTrace jobId (runStates jobId lines tail s)
        = List.replicate k Status.downloading ++ [t] ∧
      (t = Status.completed ∨ t = Status.error) :=
  runStates_trace jobId lines tail s j hj hst

theorem C2_witness :
    ∃ (k : ℕ) (t : Status),
      statusTrace "j" (runStates "j" ["12.5% of x"]
          (RunTail.exits 0 (Except.ok ["j.mp4"])) [("j", initialJob 0)])
        = List.replicate k Status.downloading ++ [t] ∧
      (t = Status.completed ∨ t = Status.error) :=
  C2_amended_run_trace "j" ["12.5% of x"] (RunTail.exits 0 (Except.ok ["j.mp4"]))
    [("j", initialJob 0)] (initialJob 0) rfl rfl

/-- C3 (counterexample): nothing in the stdout handler enforces
monotonicity — it stores whatever percentage the line carries.  With the
lines "50.0%" then "10.0%", two successive queries on a still-downloading
job observe progress 50 and then 10, a strict decrease before any terminal
status. -/
theorem C3_counterexample :
    fetchProgress (progressUpdate "j" "[download]  50.0% of 10MiB"
        [("j", initialJob 0)]) "j"
      = ProgressSnapshot.running Status.downloading 50 ∧
    fetchProgress (progressUpdate "j" "[download]  10.0% of 10MiB"
        (progressUpdate "j" "[download]  50.0% of 10MiB"
          [("j", initialJob 0)])) "j"
      = ProgressSnapshot.running Status.downloading 10 ∧
    ¬ ((50 : ℚ) ≤ 10) := by
  refine ⟨by decide, by decide, by decide⟩

/-- C3 (amended): the observed progress of a job that starts at progress 0
is non-decreasing across any sequence of output lines, provided the
percentages the parser matches arrive in non-decreasing order — which the
code does not enforce, but which holds of the external tool's output in
practice. -/
theorem C3_amended_monotone (jobId : String) (lines : List String) (s : Store)
    (j : Job) (hj : lookupJob jobId s = some j) (hp0 : j.progress = 0)
    (hmono : List.Chain' (· ≤ ·) (lines.filterMap progressParse)) :
    List.Chain' (· ≤ ·)
      ((linesStates jobId lines s).filterMap
        (fun st => (lookupJob jobId st).map Job.progress)) := by
  refine linesStates_chain jobId lines s j hj ?_
  rw [hp0]
  cases hvs : lines.filterMap progressParse with
  | nil => simp
  | cons v vs =>
      rw [hvs] at hmono
      refine List.chain'_cons.mpr ⟨?_, hmono⟩
      have hv : v ∈ lines.filterMap progressParse := by
        rw [hvs]
        exact List.mem_cons.mpr (Or.inl rfl)
      rcases List.mem_filterMap.mp hv with ⟨l, _, hl⟩
      exact progressParse_nonneg l v hl

theorem C3_witness :
    List.Chain' (· ≤ ·)
      ((linesStates "j" ["1.0%", "2.0%"] [("j", initialJob 0)]).filterMap
        (fun st => (lookupJob "j" st).map Job.progress)) := by
  apply C3_amended_monotone "j" ["1.0%", "2.0%"] [("j", initialJob 0)]
    (initialJob 0) rfl rfl
  have h : (["1.0%", "2.0%"] : List String).filterMap progressParse
      = [1, 2] := by decide
  rw [h]
  exact List.chain'_cons.mpr ⟨by decide, by simp⟩

/-- C4: after a zero exit and the settling delay, the handler scans the
directory for a file whose name starts with the job id: if one is found
the job ends completed with progress=100 and that file name; if none is
found it ends in error with the file-not-found reason (not completed); and
if the directory scan throws it ends in error with the failed-to-locate
reason. -/
theorem C4_exit_zero_discovery (jobs : Store) (jobId : String) (j : Job)
    (hj : lookupJob jobId jobs = some j) :
    (∀ (files : List String) (f : String),
        files.find? (fun g => strStartsWith g jobId) = some f → f ≠ "" →
        lookupJob jobId (fileDiscovery jobId (.ok files) jobs)
          = some { j with status := .completed, progress := 100,
                          file := some f }) ∧
    (∀ files : List String,
        files.find? (fun g => strStartsWith g jobId) = none →
        lookupJob jobId (fileDiscovery jobId (.ok files) jobs)
          = some { j with status := .error, progress := 100, file := none,
                          error := some "File not found after download" }) ∧
    (∀ u : Unit,
        lookupJob jobId (fileDiscovery jobId (.error u) jobs)
          = some { j with status := .error,
                          error := some "Failed to locate downloaded file" }) := by
  refine ⟨?_, ?_, ?_⟩
  · intro files f hf hne
    exact fileDiscovery_found jobId files jobs j hj f
      (by simp [jsOrNull, hf, hne])
  · intro files hf
    exact fileDiscovery_notFound jobId files jobs j hj (by simp [jsOrNull, hf])
  · intro u
    exact fileDiscovery_scanFail jobId u jobs j hj

theorem C4_witness :
    lookupJob "j" (fileDiscovery "j" (Except.ok ["other.txt", "j.mp4"])
        [("j", initialJob 5)])
      = some { initialJob 5 with
                 status := Status.completed,
                 progress := 100,
                 file := some "j.mp4" } :=
  (C4_exit_zero_discovery [("j", initialJob 5)] "j" (initialJob 5) rfl).1
    ["other.txt", "j.mp4"] "j.mp4" (by decide) (by decide)

/-- C5: the parser returns a value exactly when the line contains a
decimal number (digits, dot, digits) immediately followed by a percent
sign; any returned value is the numeric value of such a matched literal;
and the three examples of the specification evaluate as claimed. -/
theorem C5_progress_parse :
    (∀ line : String,
      (∃ v, progressParse line = some v) ↔ PctPattern line.data) ∧
    (∀ (line : String) (v : ℚ), progressParse line = some v →
      ∃ pre d1 d2 post, line.data = pre ++ d1 ++ '.' :: (d2 ++ '%' :: post) ∧
        d1 ≠ [] ∧ d2 ≠ [] ∧ (∀ c ∈ d1, c.isDigit = true) ∧
        (∀ c ∈ d2, c.isDigit = true) ∧
        v = (digitsVal d1 : ℚ) + (digitsVal d2 : ℚ) / (10 : ℚ) ^ d2.length) ∧
    progressParse "12.3% of 10.5MiB" = some (123 / 10) ∧
    progressParse "ERROR: no such format" = none ∧
    progressParse "100.0%" = some 100 := by
  refine ⟨?_, ?_, ?_, by decide, by decide⟩
  · intro line
    constructor
    · rintro ⟨v, hv⟩
      rw [← findPct_iff line.data]
      unfold progressParse at hv
      cases hf : findPct line.data with
      | none => rw [hf] at hv; cases hv
      | some g => rfl
    · intro h
      have hsome := (findPct_iff line.data).mpr h
      unfold progressParse
      cases hf : findPct line.data with
      | none => rw [hf] at hsome; cases hsome
      | some g => exact ⟨decValue g.1 g.2, rfl⟩
  · intro line v hv
    unfold progressParse at hv
    cases hf : findPct line.data with
    | none => rw [hf] at hv; cases hv
    | some g =>
        rw [hf] at hv
        rcases findPct_sound line.data g.1 g.2 (by rw [hf]) with
          ⟨pre, post, hdec, h1, h2, hA, hB⟩
        refine ⟨pre, g.1, g.2, post, hdec, h1, h2, hA, hB, ?_⟩
        have hvv := Option.some.inj hv
        rw [← hvv]
        show decValue g.1 g.2 = _
        rw [decValue_eq]
  · have h : progressParse "12.3% of 10.5MiB" = some (mkRat 123 10) := by
      decide
    rw [h, show (mkRat 123 10 : ℚ) = 123 / 10 from by
      norm_num [Rat.mkRat_eq_div]]

theorem C5_witness : PctPattern ("99.5% done".data) :=
  (C5_progress_parse.1 "99.5% done").mp ⟨mkRat 995 10, by decide⟩

/-- C6: a matching output line mutates only the job's progress field (the
status, file, error and createdAt fields are unchanged, so a terminal
status can never be overwritten by a late line), records under other ids
are untouched, and when the record is absent the update is a silent no-op
that does not recreate it. -/
theorem C6_progress_frame (jobId line : String) (jobs : Store) :
    (lookupJob jobId jobs = none → progressUpdate jobId line jobs = jobs) ∧
    (∀ j : Job, lookupJob jobId jobs = some j →
      (∃ j', lookupJob jobId (progressUpdate jobId line jobs) = some j' ∧
        j'.status = j.status ∧ j'.file = j.file ∧ j'.error = j.error ∧
        j'.createdAt = j.createdAt) ∧
      ∀ i : String, i ≠ jobId →
        lookupJob i (progressUpdate jobId line jobs) = lookupJob i jobs) := by
  refine ⟨fun h => progressUpdate_absent jobId line jobs h, ?_⟩
  intro j hj
  constructor
  · rw [progressUpdate_lookup_self jobId line jobs j hj]
    cases progressParse line
    · exact ⟨j, rfl, rfl, rfl, rfl, rfl⟩
    · exact ⟨_, rfl, rfl, rfl, rfl, rfl⟩
  · intro i hi
    exact progressUpdate_lookup_ne jobId line i hi jobs

theorem C6_witness :
    progressUpdate "ghost" "50.0% of x" [("j", initialJob 0)]
      = [("j", initialJob 0)] :=
  (C6_progress_frame "ghost" "50.0% of x" [("j", initialJob 0)]).1 rfl

/-- C7 (counterexample): the launch-failure handler stores the message
"Download process failed", not "process launch failed", and the non-zero
exit handler stores "Download failed", not "download failed"; the claim's
exact message texts are wrong. -/
theorem C7_counterexample :
    (lookupJob "j" (spawnErrorHandler "j" [("j", initialJob 0)])).map Job.error
      = some (some "Download process failed") ∧
    "Download process failed" ≠ "process launch failed" ∧
    (lookupJob "j" (closeHandler "j" 1 [("j", initialJob 0)])).map Job.error
      = some (some "Download failed") ∧
    "Download failed" ≠ "download failed" :=
  ⟨rfl, by decide, rfl, by decide⟩

/-- C7 (amended): when the process fails to start, the record is set to
status=error with error="Download process failed"; when it exits non-zero,
to status=error with error="Download failed"; both failures are captured
in the record by total handler functions, never thrown back through the
submission call. -/
theorem C7_amended_failure_capture (jobId : String) (jobs : Store) (j : Job)
    (hj : lookupJob jobId jobs = some j) :
    lookupJob jobId (spawnErrorHandler jobId jobs)
      = some { j with status := .error,
                      error := some "Download process failed" } ∧
    ∀ code : ℤ, code ≠ 0 →
      lookupJob jobId (closeHandler jobId code jobs)
        = some { j with status := .error, error := some "Download failed" } :=
  ⟨spawnErrorHandler_lookup_self jobId jobs j hj,
   fun code hc => closeHandler_lookup_self jobId code hc jobs j hj⟩

theorem C7_witness :
    lookupJob "j" (spawnErrorHandler "j" [("j", initialJob 0)])
      = some { initialJob 0 with
                 status := Status.error,
                 error := some "Download process failed" } ∧
    lookupJob "j" (closeHandler "j" 1 [("j", initialJob 0)])
      = some { initialJob 0 with
                 status := Status.error,
                 error := some "Download failed" } :=
  ⟨(C7_amended_failure_capture "j" [("j", initialJob 0)] (initialJob 0) rfl).1,
   (C7_amended_failure_capture "j" [("j", initialJob 0)] (initialJob 0) rfl).2
     1 (by decide)⟩

/-- C8: the progress query is a pure projection of the record (its type
returns only a snapshot, so it cannot mutate the store): not-found for an
absent id, a fully-qualified retrieval URL plus progress=100 (whatever
progress is stored) for a completed job, the stored error message with the
last known progress for an errored job, and the current status and
progress otherwise. -/
theorem C8_fetch_progress (jobs : Store) (jobId : String) :
    (lookupJob jobId jobs = none →
      fetchProgress jobs jobId = ProgressSnapshot.notFound) ∧
    (∀ j : Job, lookupJob jobId jobs = some j →
      (j.status = .completed →
        fetchProgress jobs jobId = ProgressSnapshot.done 100
          ("http://localhost:3000/downloads/" ++ jsShow j.file)) ∧
      (j.status = .error →
        fetchProgress jobs jobId
          = ProgressSnapshot.failed j.progress (j.error.getD "Unknown error")) ∧
      (j.status ≠ .completed → j.status ≠ .error →
        fetchProgress jobs jobId
          = ProgressSnapshot.running j.status j.progress)) := by
  constructor
  · intro h
    unfold fetchProgress
    rw [h]
  · intro j hj
    refine ⟨?_, ?_, ?_⟩
    · intro hc
      unfold fetchProgress
      rw [hj]
      simp [hc]
    · intro he
      unfold fetchProgress
      rw [hj]
      simp [he]
    · intro hc he
      unfold fetchProgress
      rw [hj]
      simp [hc, he]

theorem C8_witness :
    fetchProgress [("j", completedJobExample)] "j"
      = ProgressSnapshot.done 100
          ("http://localhost:3000/downloads/" ++ jsShow (some "j.mp4")) ∧
    fetchProgress [] "j" = ProgressSnapshot.notFound :=
  ⟨((C8_fetch_progress [("j", completedJobExample)] "j").2
      completedJobExample rfl).1 rfl,
   (C8_fetch_progress [] "j").1 rfl⟩

/-- C9: the retention sweep succeeds whenever no expired job's recorded
file is undeletable (a recorded-but-missing file is not an error); a
successful sweep removes exactly the records older than the one-hour
window together with their backing files (file first, then record), and
leaves every younger record, and every file not recorded by an expired
job, unchanged; and no other operation (progress update, launch-error,
close, file discovery) ever removes a record — only the sweeper destroys
jobs. -/
theorem C9_retention_sweep (now : ℤ) (jobs : Store) (fs : FS) :
    ((∀ p ∈ jobs, now - (p.2 : Job).createdAt > JOB_CLEANUP_TIME →
        ∀ f, (p.2 : Job).file = some f → f ∉ fs.undeletable) →
      ∃ out, cleanupSweep now jobs fs = .ok out) ∧
    (∀ (jobs' : Store) (fs' : FS),
      cleanupSweep now jobs fs = .ok (jobs', fs') →
      (∀ (i : String) (j : Job), lookupJob i jobs = some j →
        ¬ now - j.createdAt > JOB_CLEANUP_TIME → lookupJob i jobs' = some j) ∧
      (∀ f ∈ fs.files,
        (∀ p ∈ jobs, now - (p.2 : Job).createdAt > JOB_CLEANUP_TIME →
          (p.2 : Job).file ≠ some f) → f ∈ fs'.files) ∧
      (∀ (i : String) (j : Job), lookupJob i jobs = some j →
        now - j.createdAt > JOB_CLEANUP_TIME →
        lookupJob i jobs' = none ∧
          ∀ f, j.file = some f → f ≠ "" → f ∉ fs'.files)) ∧
    (∀ (i jobId line : String) (s : Store),
      (lookupJob i (progressUpdate jobId line s)).isSome
        = (lookupJob i s).isSome) ∧
    (∀ (i jobId : String) (s : Store),
      (lookupJob i (spawnErrorHandler jobId s)).isSome
        = (lookupJob i s).isSome) ∧
    (∀ (i jobId : String) (code : ℤ) (s : Store),
      (lookupJob i (closeHandler jobId code s)).isSome
        = (lookupJob i s).isSome) ∧
    (∀ (i jobId : String) (scan : Except Unit (List String)) (s : Store),
      (lookupJob i (fileDiscovery jobId scan s)).isSome
        = (lookupJob i s).isSome) := by
  refine ⟨?_, ?_, ?_, ?_, ?_, ?_⟩
  · intro hsafe
    exact sweepFold_isOk now (jobs.map Prod.fst) (jobs, fs) hsafe
  · intro jobs' fs' h
    refine ⟨?_, ?_, ?_⟩
    · intro i j hi hy
      exact sweepFold_keeps_fresh now (jobs.map Prod.fst) (jobs, fs)
        (jobs', fs') h i j hi hy
    · intro f hf hsafe
      exact sweepFold_keeps_file now (jobs.map Prod.fst) (jobs, fs)
        (jobs', fs') h f hf hsafe
    · intro i j hi he
      have hik : i ∈ jobs.map Prod.fst :=
        List.mem_map.mpr ⟨(i, j), lookupJob_mem i j jobs hi, rfl⟩
      exact sweepFold_expired now (jobs.map Prod.fst) (jobs, fs)
        (jobs', fs') h i j hik hi he
  · intro i jobId line s
    exact progressUpdate_isSome jobId line i s
  · intro i jobId s
    exact spawnErrorHandler_isSome jobId i s
  · intro i jobId code s
    exact closeHandler_isSome jobId code i s
  · intro i jobId scan s
    exact fileDiscovery_isSome jobId scan i s

theorem C9_witness :
    lookupJob "new" ([("new", initialJob (JOB_CLEANUP_TIME + 1))] : Store)
      = some (initialJob (JOB_CLEANUP_TIME + 1)) ∧
    lookupJob "old" ([("new", initialJob (JOB_CLEANUP_TIME + 1))] : Store)
      = none ∧
    "old.mp4" ∉ (["new.mp4"] : List String) := by
  have h := (C9_retention_sweep (JOB_CLEANUP_TIME + 1)
    [("old", expiredJobOld), ("new", initialJob (JOB_CLEANUP_TIME + 1))]
    { files := ["old.mp4", "new.mp4"], undeletable := [] }).2.1
    [("new", initialJob (JOB_CLEANUP_TIME + 1))]
    { files := ["new.mp4"], undeletable := [] } rfl
  refine ⟨?_, ?_, ?_⟩
  · exact h.1 "new" (initialJob (JOB_CLEANUP_TIME + 1)) rfl (by decide)
  · exact (h.2.2 "old" expiredJobOld rfl (by decide)).1
  · exact (h.2.2 "old" expiredJobOld rfl (by decide)).2 "old.mp4" rfl
      (by decide)

/-- C10: a job record is created with status=downloading, and every
operation of the subsystem — submission, progress update, launch-error
handling, close handling, file discovery (including each intermediate
assignment inside it), and the retention sweep — preserves the invariant
that every stored status is downloading, completed or error; in particular
no code path ever assigns pending or processing, although the status type
admits them. -/
theorem C10_status_values :
    (∀ now : ℤ, (initialJob now).status = Status.downloading) ∧
    (∀ (jobId : String) (now : ℤ) (s : Store), GoodStore s →
      GoodStore (submitDownload jobId now s)) ∧
    (∀ (jobId line : String) (s : Store), GoodStore s →
      GoodStore (progressUpdate jobId line s)) ∧
    (∀ (jobId : String) (s : Store), GoodStore s →
      GoodStore (spawnErrorHandler jobId s)) ∧
    (∀ (jobId : String) (code : ℤ) (s : Store), GoodStore s →
      GoodStore (closeHandler jobId code s)) ∧
    (∀ (jobId : String) (scan : Except Unit (List String)) (s : Store),
      GoodStore s → GoodStore (fileDiscovery jobId scan s)) ∧
    (∀ (jobId : String) (scan : Except Unit (List String)) (s : Store),
      GoodStore s → ∀ st ∈ fileDiscoverySteps jobId scan s, GoodStore st) ∧
    (∀ (now : ℤ) (jobs : Store) (fs : FS) (jobs' : Store) (fs' : FS),
      cleanupSweep now jobs fs = .ok (jobs', fs') → GoodStore jobs →
      GoodStore jobs') :=
  ⟨fun _ => rfl, goodStore_submit, goodStore_progressUpdate,
   goodStore_spawnError, goodStore_close, goodStore_fileDiscovery,
   goodStore_fileDiscoverySteps, goodStore_sweep⟩

theorem C10_witness : GoodStore (submitDownload "j" 0 []) :=
  C10_status_values.2.1 "j" 0 [] (by intro p hp; cases hp)
